import Mathlib

/-!
Verification development for the marketplace aggregation service
(`backend/marketplace_service/main.py`).

The Python source is shallowly embedded: pure helpers become Lean
functions; the stateful collection loops become explicit state passing
over input traces (page fetch outcomes, scroll-round outcomes, retry
attempt outcomes); machine time is modelled as `Nat`/`ℚ` values; code
that can raise returns `Except`/`Option`.  External I/O (the
Wildberries HTTP endpoint, the Chrome driver, the rendered Ozon page)
is abstracted as input data fed to the embedded control flow, which is
itself translated line by line from the source.
-/

/-! ### String helpers.  Character-level re-implementations are used instead
of the non-reducing core `String` routines so that every definition evaluates by
kernel reduction; each mirrors the Python operation named in its comment. -/

/-- Python `str(n)` for a natural number (decimal rendering). -/
def natToStr (n : Nat) : String := Nat.repr n

/-- Python `str.strip()`: drop leading and trailing whitespace. -/
def trimChars (cs : List Char) : List Char :=
  ((cs.dropWhile Char.isWhitespace).reverse.dropWhile Char.isWhitespace).reverse

def pyStrip (s : String) : String := String.mk (trimChars s.data)

/-- Emptiness of a string (Python falsiness of `str`). -/
def strIsEmpty (s : String) : Bool := s.data.isEmpty

/-- `digits_only`: `re.sub(r"[^\d]", "", s or "")` — keep only digit characters. -/
def digitsOnly (s : String) : String := String.mk (s.data.filter Char.isDigit)

/-- Python `str.isdigit`: true iff the string is non-empty and all characters are digits. -/
def pyIsdigit (s : String) : Bool := !(strIsEmpty s) && s.data.all Char.isDigit

/-- `_clean_spaces`: replace non-breaking spaces by plain spaces, then strip. -/
def cleanSpaces (s : String) : String :=
  pyStrip (String.mk (s.data.map (fun c => if c = '\u00A0' then ' ' else c)))

/-- `s.replace(",", ".")` for the single-character pattern used in the source. -/
def commaToDot (s : String) : String :=
  String.mk (s.data.map (fun c => if c = ',' then '.' else c))

/-! ### Data model: `ProductItem` -/

structure Item where
  name : String
  url : String
  price : String
  rating : String
  reviews : String
  imgUrl : String
  marketplace : String
deriving DecidableEq, Repr

/-- Field validity used in the spec's testable property: `url`, `name`, `price`
non-empty and `price` all digits. -/
def itemOk (it : Item) : Bool :=
  !(strIsEmpty it.url) && !(strIsEmpty it.name) && !(strIsEmpty it.price)
    && it.price.data.all Char.isDigit

/-- `valid_product_item(item, seen)`: url, name, price truthy (non-empty),
url not already seen, price a digit string.  (The `isinstance(price, str)`
check is vacuous here because `price` is typed `String`.) -/
def validProductItem (item : Item) (seen : List String) : Bool :=
  !(strIsEmpty item.url) && !(strIsEmpty item.name) && !(strIsEmpty item.price)
    && !(seen.contains item.url) && pyIsdigit item.price

/-! ### Configuration (lines 51-107); env vars modelled as `String → Option String` -/

def envD (env : String → Option String) (key dflt : String) : String :=
  (env key).getD dflt

/-- Line 53 of the source, verbatim: `os.getenv("ENABLE_CACHE", "1") == "0"`. -/
def ENABLE_CACHE (env : String → Option String) : Bool :=
  envD env "ENABLE_CACHE" "1" == "0"

def ENABLE_WB (env : String → Option String) : Bool :=
  envD env "ENABLE_WB" "1" == "1"

def ENABLE_OZON (env : String → Option String) : Bool :=
  envD env "ENABLE_OZON" "1" == "1"

def WB_GLOBAL_COOLDOWN (env : String → Option String) : Bool :=
  envD env "WB_GLOBAL_COOLDOWN" "1" == "1"

/-- The default environment: no variable is set. -/
def defaultEnv : String → Option String := fun _ => none

/-- Numeric configuration defaults (the `int(os.getenv(...))` values under `defaultEnv`). -/
def MAX_ITEMS : Nat := 100
def CACHE_TTL : Nat := 60
def WB_ITEMS : Nat := 70
def WB_MAX_RETRIES : Nat := 6
def WB_MAX_PAGES : Nat := 2
def WB_BACKOFF_BASE : ℚ := 3 / 2
def WB_BACKOFF_MAX : ℚ := 30
def OZON_ITEMS : Nat := 30
def OZON_RETRIES : Nat := 3
def OZON_MIN_ITEMS : Nat := 20
def OZON_SCROLL_ROUNDS : Nat := 50
def OZON_STAGNATION_LIMIT : Nat := 12

/-! ### Result cache (`_cache`, `get_from_cache`, `set_to_cache`);
timestamps modelled in whole seconds as `Nat` -/

structure ProductsResponse where
  query : String
  count : Nat
  items : List Item
deriving DecidableEq, Repr

abbrev Cache := List (String × ProductsResponse × Nat)

def cacheLookup : Cache → String → Option (ProductsResponse × Nat)
  | [], _ => none
  | (k, d, t) :: rest, key => if k = key then some (d, t) else cacheLookup rest key

/-- `_cache.pop(key, None)`. -/
def cacheErase (c : Cache) (key : String) : Cache :=
  (c : List (String × ProductsResponse × Nat)).filter (fun e => e.1 ≠ key)

/-- `_cache[key] = (data, now)` — dict assignment replaces any previous entry. -/
def cacheInsert (c : Cache) (key : String) (d : ProductsResponse) (ts : Nat) : Cache :=
  (key, d, ts) :: cacheErase c key

/-- `get_from_cache`: returns the value on a fresh hit, pops an expired entry.
Returns the (possibly mutated) cache alongside the lookup result. -/
def getFromCache (enableCache : Bool) (ttl now : Nat) (c : Cache) (key : String) :
    Option ProductsResponse × Cache :=
  if !enableCache then (none, c)
  else
    match cacheLookup c key with
    | none => (none, c)
    | some (d, ts) => if now - ts < ttl then (some d, c) else (none, cacheErase c key)

/-- `set_to_cache`: a no-op when the cache is disabled. -/
def setToCache (enableCache : Bool) (now : Nat) (c : Cache) (key : String)
    (d : ProductsResponse) : Cache :=
  if enableCache then cacheInsert c key d now else c

/-! ### Wildberries paginated-API collector (`_wb_api_collect_sync`, `collect_wb`).
One raw upstream product entry; JSON paths collapsed to typed fields:
`sizesProductPrice` is `sizes[0].price.product` when that path yields a number,
`rating` is `str(p["rating"])` when the key is present, `imgAbstract` is the
result of the `_wb_extract_img_url` heuristic (no claim depends on its internals). -/

structure WbRaw where
  id : Option Int
  nmId : Option Int
  name : Option String
  sizesProductPrice : Option Int
  priceU : Option Int
  salePriceU : Option Int
  rating : Option String
  feedbacks : Option Nat
  imgAbstract : String
deriving DecidableEq, Repr

/-- Python `a or b` on optional ints: `None` and `0` are falsy. -/
def pyOrInt (a b : Option Int) : Option Int :=
  match a with
  | some n => if n = 0 then b else some n
  | none => b

def wbLink (pid : Int) : String :=
  "https://www.wildberries.ru/catalog/" ++ toString pid ++ "/detail.aspx"

/-- Price resolution: `sizes[0].price.product` if present, else
`p.get("priceU") or p.get("salePriceU") or 0`. -/
def wbProductPrice (p : WbRaw) : Int :=
  match p.sizesProductPrice with
  | some v => v
  | none => (pyOrInt (pyOrInt p.priceU p.salePriceU) (some 0)).getD 0

/-- `str(int(pp) // 100) if int(pp) > 0 else "0"` (for positive `pp`,
truncating and flooring division agree). -/
def wbPriceRub (pp : Int) : String :=
  if 0 < pp then natToStr (pp.toNat / 100) else "0"

/-- One iteration of the `for p in products` body building the item dict. -/
def wbBuildItem (p : WbRaw) : Item :=
  let pid := pyOrInt p.id p.nmId
  { marketplace := "wildberries"
    name := p.name.getD ""
    url := match pid with
           | some n => if n = 0 then "" else wbLink n
           | none => ""
    price := wbPriceRub (wbProductPrice p)
    rating := p.rating.getD ""
    reviews := match p.feedbacks with
               | some n => natToStr n
               | none => ""
    imgUrl := p.imgAbstract }

/-- The `for p in products` loop: validate, dedup against `seen`, append,
break once `limit` is reached. -/
def wbProcessPage : List WbRaw → List Item → List String → Nat → List Item × List String
  | [], out, seen, _ => (out, seen)
  | p :: rest, out, seen, limit =>
    let item := wbBuildItem p
    if validProductItem item seen then
      let out' := out ++ [item]
      let seen' := item.url :: seen
      if limit ≤ out'.length then (out', seen')
      else wbProcessPage rest out' seen' limit
    else wbProcessPage rest out seen limit

/-- The `while len(out) < limit and page <= WB_MAX_PAGES` loop.  `fetch page`
is the outcome of `_wb_urlopen_with_retry` + JSON decoding for that page:
`.error` when the retry cap was exhausted and the last exception re-raised,
`.ok products` otherwise (a missing/non-list `products` field is the empty
list, which breaks the loop exactly as in the source).  The fuel argument
counts the remaining pages (`maxPages + 1 - page`). -/
def wbApiGo (fetch : Nat → Except Unit (List WbRaw)) (limit : Nat) :
    Nat → Nat → List Item → List String → Except Unit (List Item)
  | 0, _, out, _ => .ok (out.take limit)
  | fuel + 1, page, out, seen =>
    if out.length < limit then
      match fetch page with
      | .error e => .error e
      | .ok products =>
        if products.isEmpty then .ok (out.take limit)
        else
          let r := wbProcessPage products out seen limit
          wbApiGo fetch limit fuel (page + 1) r.1 r.2
    else .ok (out.take limit)

/-- `_wb_api_collect_sync(query, limit)`; a fetch failure propagates out. -/
def wbApiCollectSync (fetch : Nat → Except Unit (List WbRaw)) (limit maxPages : Nat) :
    Except Unit (List Item) :=
  wbApiGo fetch limit maxPages 1 [] []

/-- `collect_wb`: wraps the synchronous collector, catching any exception and
returning the empty list. -/
def collectWb (fetch : Nat → Except Unit (List WbRaw)) (limit maxPages : Nat) : List Item :=
  match wbApiCollectSync fetch limit maxPages with
  | .ok l => l
  | .error _ => []

/-! ### Rate-limited API client (`_wb_urlopen_with_retry`, `_wb_set_block`,
`_wb_wait_if_blocked`).  The per-attempt network outcome is an input trace;
the jitter `random.uniform(0.2, 0.9)` of each attempt is an input `jit`;
side effects (pacing wait, cooldown declaration, backoff sleep) are recorded
as an event list. -/

inductive WbFetchErr where
  /-- `HTTPError` with status code and parsed `Retry-After` header; `none`
  covers an absent, empty, or unparsable header (all of which leave
  `delay = None` in the source). -/
  | http (code : Nat) (retryAfter : Option ℚ)
  /-- the `(URLError, TimeoutError)` branch -/
  | netErr
  /-- the final catch-all `except Exception` branch -/
  | other
deriving DecidableEq, Repr

inductive WbEvent where
  /-- `_wb_rate_sleep_if_needed()` before an attempt (cooldown wait + pacing) -/
  | rateWait
  /-- `_wb_set_block(d)` — declare the shared cooldown -/
  | setBlock (d : ℚ)
  /-- `time.sleep(d)` backoff before the next attempt -/
  | sleep (d : ℚ)
deriving DecidableEq, Repr

/-- `min(WB_BACKOFF_MAX, WB_BACKOFF_BASE ** (attempt + 1) + jitter)`. -/
def backoffDelay (base maxB : ℚ) (attempt : Nat) (j : ℚ) : ℚ :=
  min maxB (base ^ (attempt + 1) + j)

/-- Per-error handling of one failed attempt: the computed delay and whether
`_wb_set_block` is called. -/
def retryStep (base maxB : ℚ) (attempt : Nat) (j : ℚ) : WbFetchErr → ℚ × Bool
  | .http code ra =>
    if code = 429 then
      match ra with
      | some d => (d, true)
      | none => (backoffDelay base maxB attempt j, true)
    else (backoffDelay base maxB attempt j, false)
  | .netErr => (backoffDelay base maxB attempt j, false)
  | .other => (backoffDelay base maxB attempt j, false)

/-- `_wb_set_block(s)`: `blocked_until = max(blocked_until, now + max(0, s))`,
only when the global cooldown is enabled. -/
def wbSetBlock (cooldown : Bool) (now blockedUntil s : ℚ) : ℚ :=
  if cooldown then max blockedUntil (now + max 0 s) else blockedUntil

/-- `_wb_wait_if_blocked`: the sleep duration a caller observes at time `now`
against the shared `blocked_until`. -/
def wbWaitIfBlocked (cooldown : Bool) (blockedUntil now : ℚ) : ℚ :=
  if cooldown then max 0 (blockedUntil - now) else 0

/-- The `for attempt in range(WB_MAX_RETRIES)` loop.  `f a` is the outcome of
attempt `a`; values are the fetched payloads (abstract `Nat` tokens).
Returns `none` when the cap is exhausted (the re-raised `last_exc`). -/
def wbRetryGo (f : Nat → Except WbFetchErr Nat) (jit : Nat → ℚ) (base maxB : ℚ) :
    Nat → Nat → List WbEvent → Option Nat × List WbEvent
  | 0, _, evs => (none, evs)
  | fuel + 1, attempt, evs =>
    let evs1 := evs ++ [WbEvent.rateWait]
    match f attempt with
    | .ok v => (some v, evs1)
    | .error e =>
      let db := retryStep base maxB attempt (jit attempt) e
      let evs2 := evs1 ++ (if db.2 then [WbEvent.setBlock db.1] else []) ++ [WbEvent.sleep db.1]
      wbRetryGo f jit base maxB fuel (attempt + 1) evs2

/-- `_wb_urlopen_with_retry` as a trace-producing function. -/
def wbUrlopenWithRetry (f : Nat → Except WbFetchErr Nat) (jit : Nat → ℚ)
    (base maxB : ℚ) (maxRetries : Nat) : Option Nat × List WbEvent :=
  wbRetryGo f jit base maxB maxRetries 0 []

/-! ### Ozon extraction (`_extract_ozon_rating_reviews`, `_parse_ozon_html`).
A rendered product card is modelled by the text the selectors would return:
`href` is the (already stripped) link target, `""` when no link was found;
`priceText`/`nameText` are the texts of the first matching price/name spans;
`ratingText` the text of the `textPremium` span; `rawTitles` the `"title"`
values appearing in the card's raw data-state JSON, in order;
`reviewsAbstract`/`imgAbstract` are the review-count and image heuristics'
results (no claim depends on their internals). -/

structure OzonCard where
  href : String
  priceText : Option String
  nameText : Option String
  linkText : String
  ratingText : Option String
  rawTitles : List String
  reviewsAbstract : String
  imgAbstract : String
deriving DecidableEq, Repr

/-- `re.fullmatch(r"[1-5](?:\.\d)?", s)`: `1`-`5`, optionally a dot and one digit. -/
def isOneToFive (c : Char) : Bool := '1' ≤ c && c ≤ '5'

def isRatingShape (s : String) : Bool :=
  match s.data with
  | [c] => isOneToFive c
  | [c, p, d] => isOneToFive c && p == '.' && d.isDigit
  | _ => false

/-- The data-state fallback `re.search('"title"\s*:\s*"([1-5](?:\.\d)?)\s*"', raw)`
applied to one quoted title value: a leading `[1-5](\.\d)?` capture followed
only by whitespace. -/
def titleRatingCapture (t : String) : Option String :=
  match t.data with
  | c :: p :: d :: rest =>
    if p == '.' && isOneToFive c && d.isDigit && rest.all Char.isWhitespace then
      some (String.mk [c, '.', d])
    else if isOneToFive c && (p :: d :: rest).all Char.isWhitespace then
      some (String.mk [c])
    else none
  | c :: rest =>
    if isOneToFive c && rest.all Char.isWhitespace then some (String.mk [c]) else none
  | [] => none

def firstSome : List String → (String → Option String) → Option String
  | [], _ => none
  | t :: rest, f =>
    match f t with
    | some r => some r
    | none => firstSome rest f

/-- Rating half of `_extract_ozon_rating_reviews`: clean the `textPremium`
text, turn `,` into `.`, keep it only if it fullmatches `[1-5](?:\.\d)?`;
when empty, fall back to the first matching `"title"` value of the card's
data-state JSON.  (The reviews half is independent of the rating and is
carried as `reviewsAbstract`.) -/
def extractOzonRating (ratingText : Option String) (rawTitles : List String) : String :=
  let primary :=
    match ratingText with
    | some t =>
      let r := commaToDot (cleanSpaces t)
      if isRatingShape r then r else ""
    | none => ""
  if strIsEmpty primary then (firstSome rawTitles titleRatingCapture).getD "" else primary

/-- URL construction: `href.split("?")[0]`, prefixed with the site origin
unless the href is already absolute. -/
def ozonUrlOfHref (href : String) : String :=
  let base := String.mk (href.data.takeWhile (fun c => c ≠ '?'))
  if "http".data.isPrefixOf href.data then base else "https://www.ozon.ru" ++ base

/-- The per-card body of `_parse_ozon_html` up to the `valid_product_item`
check; `none` models the `continue` branches. -/
def parseOzonCard (card : OzonCard) (seen : List String) : Option Item :=
  if strIsEmpty card.href then none
  else
    let url := ozonUrlOfHref card.href
    if strIsEmpty url || seen.contains url then none
    else
      let price :=
        match card.priceText with
        | some t => digitsOnly t
        | none => ""
      if strIsEmpty price then none
      else
        let name0 :=
          match card.nameText with
          | some t => cleanSpaces t
          | none => ""
        let name := if strIsEmpty name0 then cleanSpaces card.linkText else name0
        some { marketplace := "ozon", name := name, url := url, price := price
               rating := extractOzonRating card.ratingText card.rawTitles
               reviews := card.reviewsAbstract, imgUrl := card.imgAbstract }

/-- `_parse_ozon_html(html, seen, left)`: walk the cards, validate, dedup
against the shared `seen` set (returned updated, since the source mutates it
in place), break once `left` items were produced. -/
def parseOzonCards : List OzonCard → List String → Nat → List Item × List String
  | [], seen, _ => ([], seen)
  | card :: rest, seen, left =>
    match parseOzonCard card seen with
    | none => parseOzonCards rest seen left
    | some item =>
      if validProductItem item seen then
        if left ≤ 1 then ([item], item.url :: seen)
        else
          let r := parseOzonCards rest (item.url :: seen) (left - 1)
          (item :: r.1, r.2)
      else parseOzonCards rest seen left

/-! ### Scroll-based browser collector (`_ozon_sync_collect`).  Each loop
round's observable page behaviour is an input: whether a ban page appeared,
the cards the parser would see, and whether the tile count grew after the
scroll (including the load-more retry). -/

structure ScrollRound where
  blocked : Bool
  cards : List OzonCard
  grew : Bool
deriving DecidableEq, Repr

structure ScrollSt where
  results : List Item
  seen : List String
  stag : Nat
  stopped : Bool
  roundsDone : Nat
deriving DecidableEq, Repr

def scrollInit : ScrollSt :=
  { results := [], seen := [], stag := 0, stopped := false, roundsDone := 0 }

/-- One iteration of the `for _ in range(OZON_SCROLL_ROUNDS)` body:
ban check, parse/merge/cap check, growth check, stagnation accounting. -/
def ozonRoundStep (limit stagLimit : Nat) (st : ScrollSt) (r : ScrollRound) : ScrollSt :=
  if st.stopped then st
  else if r.blocked then
    { st with roundsDone := st.roundsDone + 1, stopped := true }
  else
    let pr := parseOzonCards r.cards st.seen (limit - st.results.length)
    let results' := st.results ++ pr.1
    if pr.1.isEmpty = false ∧ limit ≤ results'.length then
      { results := results', seen := pr.2, stag := st.stag, stopped := true
        roundsDone := st.roundsDone + 1 }
    else if r.grew then
      { results := results', seen := pr.2, stag := 0, stopped := false
        roundsDone := st.roundsDone + 1 }
    else if stagLimit ≤ st.stag + 1 then
      { results := results', seen := pr.2, stag := st.stag + 1, stopped := true
        roundsDone := st.roundsDone + 1 }
    else
      { results := results', seen := pr.2, stag := st.stag + 1, stopped := false
        roundsDone := st.roundsDone + 1 }

def ozonScrollLoop (limit stagLimit : Nat) (rounds : List ScrollRound) (st : ScrollSt) :
    ScrollSt :=
  rounds.foldl (ozonRoundStep limit stagLimit) st

/-- `_ozon_sync_collect`: initial ban check (returns `[]`), the first-tile
wait (raises `TimeoutException` when no tile appears — `.error`), the scroll
loop, and the final extraction pass. -/
def ozonSyncCollect (limit stagLimit : Nat) (blocked0 firstTilesOk : Bool)
    (rounds : List ScrollRound) (finalCards : List OzonCard) : Except Unit (List Item) :=
  if blocked0 then .ok []
  else if !firstTilesOk then .error ()
  else
    let st := ozonScrollLoop limit stagLimit rounds scrollInit
    let results :=
      if st.results.length < limit then
        st.results ++ (parseOzonCards finalCards st.seen (limit - st.results.length)).1
      else st.results
    .ok (results.take limit)

/-! ### Collector retry envelope (`collect_ozon`).  `outcome a` is the result
of attempt `a`'s `_ozon_sync_collect` call (`.error` when the body raised);
the pool/driver lifecycle is recorded as events for the release-pairing claim. -/

def collectOzonGo (outcome : Nat → Except Unit (List Item)) (needMin : Nat) :
    Nat → Nat → Option (List Item)
  | 0, _ => none
  | fuel + 1, attempt =>
    match outcome attempt with
    | .ok items =>
      if needMin ≤ items.length then some items
      else if fuel = 0 then some items
      else collectOzonGo outcome needMin fuel (attempt + 1)
    | .error _ =>
      if fuel = 0 then some []
      else collectOzonGo outcome needMin fuel (attempt + 1)

/-- `collect_ozon(query, limit)` with `need_min = min(limit, OZON_MIN_ITEMS)`.
`none` arises only when the attempt budget is zero (the loop body never runs
and the Python function falls through, returning `None`). -/
def collectOzon (outcome : Nat → Except Unit (List Item)) (limit minItems retries : Nat) :
    Option (List Item) :=
  collectOzonGo outcome (min limit minItems) retries 0

inductive PoolEvent where
  /-- `_new_chrome_driver` for attempt `a` (session acquired) -/
  | acquire (a : Nat)
  /-- `_quit_chrome_driver` for attempt `a`: `driver.quit()` plus
  `shutil.rmtree` of the session's profile directory -/
  | release (a : Nat)
deriving DecidableEq, Repr

/-- `collect_ozon` with the driver lifecycle recorded: the `finally` block
runs `_quit_chrome_driver` on every exit path of the `try`. -/
def collectOzonEvGo (outcome : Nat → Except Unit (List Item)) (needMin : Nat) :
    Nat → Nat → List PoolEvent → Option (List Item) × List PoolEvent
  | 0, _, evs => (none, evs)
  | fuel + 1, attempt, evs =>
    let evs1 := evs ++ [PoolEvent.acquire attempt]
    match outcome attempt with
    | .ok items =>
      if needMin ≤ items.length then (some items, evs1 ++ [PoolEvent.release attempt])
      else if fuel = 0 then (some items, evs1 ++ [PoolEvent.release attempt])
      else collectOzonEvGo outcome needMin fuel (attempt + 1) (evs1 ++ [PoolEvent.release attempt])
    | .error _ =>
      if fuel = 0 then (some [], evs1 ++ [PoolEvent.release attempt])
      else collectOzonEvGo outcome needMin fuel (attempt + 1) (evs1 ++ [PoolEvent.release attempt])

def collectOzonEv (outcome : Nat → Except Unit (List Item)) (needMin retries : Nat) :
    Option (List Item) × List PoolEvent :=
  collectOzonEvGo outcome needMin retries 0 []

def poolAcquires (evs : List PoolEvent) : List Nat :=
  evs.filterMap (fun e => match e with | .acquire a => some a | _ => none)

def poolReleases (evs : List PoolEvent) : List Nat :=
  evs.filterMap (fun e => match e with | .release a => some a | _ => none)

/-! ### Orchestrating endpoint (`get_products`).  The two collector branches'
results are inputs (`.error` models a branch that raised, which
`asyncio.gather(..., return_exceptions=True)` turns into a logged, skipped
exception value). -/

inductive AggError where
  /-- HTTP 400 `Invalid q` -/
  | invalidQuery
  /-- HTTP 500 `No marketplaces enabled` -/
  | noMarketplaces
deriving DecidableEq, Repr

def gatherItems (parts : List (Except Unit (List Item))) : List Item :=
  parts.foldl
    (fun acc part =>
      match part with
      | .ok l => acc ++ l
      | .error _ => acc)
    []

/-- `get_products(request, q)`: validate, consult the cache, fan out to the
enabled collectors, merge, truncate, repopulate the cache. -/
def getProducts (enableCache : Bool) (ttl now maxItems : Nat) (enableWB enableOzon : Bool)
    (wbOutcome ozonOutcome : Except Unit (List Item)) (cache : Cache) (q : String) :
    Except AggError (ProductsResponse × Cache) :=
  if strIsEmpty (pyStrip q) then .error .invalidQuery
  else
    let qt := pyStrip q
    let key := "products:" ++ qt
    let gc := getFromCache enableCache ttl now cache key
    match gc.1 with
    | some resp => .ok (resp, gc.2)
    | none =>
      let parts : List (Except Unit (List Item)) :=
        (if enableWB then [wbOutcome] else []) ++ (if enableOzon then [ozonOutcome] else [])
      if parts.isEmpty then .error .noMarketplaces
      else
        let finalItems := (gatherItems parts).take maxItems
        let payload : ProductsResponse :=
          { query := qt, count := finalItems.length, items := finalItems }
        .ok (payload, setToCache enableCache now gc.2 key payload)

/-! ### Concrete inputs used by counterexamples and witnesses -/

/-- A well-formed upstream WB product: id 1, price 500000 kopecks. -/
def wbRawCE : WbRaw :=
  { id := some 1, nmId := none, name := some "Phone", sizesProductPrice := none
    priceU := some 500000, salePriceU := none, rating := none, feedbacks := none
    imgAbstract := "" }

def wbItemCE : Item :=
  { name := "Phone", url := "https://www.wildberries.ru/catalog/1/detail.aspx"
    price := "5000", rating := "", reviews := "", imgUrl := ""
    marketplace := "wildberries" }

/-- Page 1 holds one product, later pages are empty. -/
def wbFetchCE : Nat → Except Unit (List WbRaw) :=
  fun p => if p = 1 then .ok [wbRawCE] else .ok []

/-- Page 1 succeeds with one product; page 2 exhausts the retry cap. -/
def wbFetchCE4 : Nat → Except Unit (List WbRaw) :=
  fun p => if p = 1 then .ok [wbRawCE] else .error ()

/-- An Ozon card whose absolute href is the same URL a WB product produces. -/
def ozCardCE : OzonCard :=
  { href := "https://www.wildberries.ru/catalog/1/detail.aspx"
    priceText := some "4 990 ₽", nameText := some "Phone", linkText := ""
    ratingText := none, rawTitles := [], reviewsAbstract := "", imgAbstract := "" }

def ozItemCE : Item :=
  { name := "Phone", url := "https://www.wildberries.ru/catalog/1/detail.aspx"
    price := "4990", rating := "", reviews := "", imgUrl := "", marketplace := "ozon" }

/-- A WB product whose upstream `rating` field is `0` (reported as `"0"`). -/
def wbRawR0 : WbRaw :=
  { id := some 2, nmId := none, name := some "Cup", sizesProductPrice := none
    priceU := some 100, salePriceU := none, rating := some "0", feedbacks := none
    imgAbstract := "" }

def wbItemR0 : Item :=
  { name := "Cup", url := "https://www.wildberries.ru/catalog/2/detail.aspx"
    price := "1", rating := "0", reviews := "", imgUrl := "", marketplace := "wildberries" }

def wbFetchR0 : Nat → Except Unit (List WbRaw) :=
  fun p => if p = 1 then .ok [wbRawR0] else .ok []

/-- A WB product with every price path missing. -/
def wbRawP0 : WbRaw :=
  { id := some 3, nmId := none, name := some "Pen", sizesProductPrice := none
    priceU := none, salePriceU := none, rating := none, feedbacks := none
    imgAbstract := "" }

def wbItemP0 : Item :=
  { name := "Pen", url := "https://www.wildberries.ru/catalog/3/detail.aspx"
    price := "0", rating := "", reviews := "", imgUrl := "", marketplace := "wildberries" }

def wbFetchP0 : Nat → Except Unit (List WbRaw) :=
  fun p => if p = 1 then .ok [wbRawP0] else .ok []

def ozAttemptItems (n : Nat) : List Item :=
  (List.range n).map
    (fun i =>
      { name := "n", url := "u" ++ natToStr i, price := "1", rating := "", reviews := ""
        imgUrl := "", marketplace := "ozon" })

/-- Attempt outcomes with shrinking yields: 5, then 4, then 3 items. -/
def ozOutcomesCE : Nat → Except Unit (List Item) :=
  fun a => .ok (ozAttemptItems (5 - a))

/-! ### Shared lemmas -/

theorem listContains_iff {α : Type} [BEq α] [LawfulBEq α] {l : List α} {a : α} :
    l.contains a = true ↔ a ∈ l := by
  simp [List.contains, List.elem_iff]

theorem validProductItem_facts {it : Item} {seen : List String}
    (h : validProductItem it seen = true) : itemOk it = true ∧ it.url ∉ seen := by
  simp only [validProductItem, Bool.and_eq_true, Bool.not_eq_true'] at h
  obtain ⟨⟨⟨⟨hu, hn⟩, hp⟩, hs⟩, hd⟩ := h
  refine ⟨?_, ?_⟩
  · have hall : it.price.data.all Char.isDigit = true := by
      simp only [pyIsdigit, Bool.and_eq_true] at hd
      exact hd.2
    simp only [itemOk, Bool.and_eq_true, Bool.not_eq_true']
    exact ⟨⟨⟨hu, hn⟩, hp⟩, hall⟩
  · intro hmem
    rw [listContains_iff.mpr hmem] at hs
    exact absurd hs (by decide)

/-- Claim C1, counterexample: with both sources enabled and both collector
branches failing (raising), the endpoint returns a successful empty response
(`count = 0`), not a distinct terminal error. -/
theorem C1_counterexample :
    getProducts (ENABLE_CACHE defaultEnv) 60 0 100 (ENABLE_WB defaultEnv)
      (ENABLE_OZON defaultEnv) (.error ()) (.error ()) [] "iphone"
    = .ok ({ query := "iphone", count := 0, items := [] }, []) := rfl

/-- Claim C1 (amended): with no source enabled the endpoint reports the
configuration error (HTTP 500 `No marketplaces enabled`); when every enabled
source fails, the endpoint returns an empty successful response rather than
a distinct terminal error. -/
theorem C1_amended_thm :
    ∀ (ec : Bool) (ttl now maxItems : Nat) (cache : Cache) (q : String)
      (wbO ozO : Except Unit (List Item)),
    strIsEmpty (pyStrip q) = false →
    (getFromCache ec ttl now cache ("products:" ++ pyStrip q)).1 = none →
    getProducts ec ttl now maxItems false false wbO ozO cache q = .error .noMarketplaces
    ∧ ∃ c', getProducts ec ttl now maxItems true true (.error ()) (.error ()) cache q
          = .ok ({ query := pyStrip q, count := 0, items := [] }, c') := by
  intro ec ttl now maxItems cache q wbO ozO hq hc
  constructor
  · simp [getProducts, hq, hc]
  · exact ⟨setToCache ec now (getFromCache ec ttl now cache ("products:" ++ pyStrip q)).2
      ("products:" ++ pyStrip q) { query := pyStrip q, count := 0, items := [] },
      by simp [getProducts, hq, hc, gatherItems]⟩

theorem C1_witness :
    getProducts false 60 0 100 false false (.ok []) (.ok []) [] "tv" = .error .noMarketplaces
    ∧ ∃ c', getProducts false 60 0 100 true true (.error ()) (.error ()) [] "tv"
          = .ok ({ query := "tv", count := 0, items := [] }, c') := by
  have h := C1_amended_thm false 60 0 100 [] "tv" (.ok []) (.ok []) (by decide) (by decide)
  exact ⟨h.1, h.2⟩

/-- Claim C2 (code bug): the source parses the cache flag as
`os.getenv("ENABLE_CACHE", "1") == "0"`, so under the default environment the
cache is disabled: lookups always miss, stores are no-ops, and the endpoint's
result is independent of the cache contents — a second identical call within
the TTL re-runs the collectors instead of being served from the cache. -/
theorem C2_cache_flag_inverted :
    ENABLE_CACHE defaultEnv = false
    ∧ (∀ (ttl now : Nat) (cache : Cache) (key : String),
        getFromCache (ENABLE_CACHE defaultEnv) ttl now cache key = (none, cache))
    ∧ (∀ (now : Nat) (cache : Cache) (key : String) (d : ProductsResponse),
        setToCache (ENABLE_CACHE defaultEnv) now cache key d = cache)
    ∧ (∀ (ttl now maxItems : Nat) (eWB eOz : Bool) (wbO ozO : Except Unit (List Item))
        (cache : Cache) (q : String),
        Except.map Prod.fst
            (getProducts (ENABLE_CACHE defaultEnv) ttl now maxItems eWB eOz wbO ozO cache q)
          = Except.map Prod.fst
            (getProducts (ENABLE_CACHE defaultEnv) ttl now maxItems eWB eOz wbO ozO [] q)) := by
  refine ⟨rfl, ?_, ?_, ?_⟩
  · intro ttl now cache key
    simp [getFromCache, ENABLE_CACHE, envD, defaultEnv]
  · intro now cache key d
    simp [setToCache, ENABLE_CACHE, envD, defaultEnv]
  · intro ttl now maxItems eWB eOz wbO ozO cache q
    have hget : ∀ (c : Cache) (k : String),
        getFromCache (ENABLE_CACHE defaultEnv) ttl now c k = (none, c) := by
      intro c k
      simp [getFromCache, ENABLE_CACHE, envD, defaultEnv]
    have hset : ∀ (c : Cache) (k : String) (d : ProductsResponse),
        setToCache (ENABLE_CACHE defaultEnv) now c k d = c := by
      intro c k d
      simp [setToCache, ENABLE_CACHE, envD, defaultEnv]
    by_cases hq : strIsEmpty (pyStrip q) = true
    · simp [getProducts, hq]
    · simp only [Bool.not_eq_true] at hq
      simp only [getProducts, hq, hget, hset]
      split_ifs <;> simp [Except.map]

/-- Claim C10: the validity check accepts the price string `"0"`; the WB
price computation yields `"0"` for a missing, zero, or negative upstream
price; and such an item flows through the collector into the output. -/
theorem C10_zero_price :
    ∀ (nm u rt rv im mp : String) (seen : List String) (pp : Int),
    strIsEmpty u = false → strIsEmpty nm = false → seen.contains u = false → pp ≤ 0 →
    validProductItem
      { name := nm, url := u, price := "0", rating := rt, reviews := rv, imgUrl := im
        marketplace := mp } seen = true
    ∧ wbPriceRub pp = "0"
    ∧ (∀ p : WbRaw, p.sizesProductPrice = none → p.priceU = none → p.salePriceU = none →
        wbProductPrice p = 0)
    ∧ collectWb wbFetchP0 70 2 = [wbItemP0] ∧ wbItemP0.price = "0" := by
  intro nm u rt rv im mp seen pp hu hnm hs hpp
  refine ⟨?_, ?_, ?_, by decide, rfl⟩
  · have hu' : ¬u.data = [] := by simpa [strIsEmpty] using hu
    have hnm' : ¬nm.data = [] := by simpa [strIsEmpty] using hnm
    have hs' : u ∉ seen := by
      intro hm
      rw [listContains_iff.mpr hm] at hs
      exact absurd hs (by decide)
    simp [validProductItem, pyIsdigit, strIsEmpty, hu', hnm', hs']
  · unfold wbPriceRub
    rw [if_neg (by omega)]
  · intro p h1 h2 h3
    simp [wbProductPrice, pyOrInt, h1, h2, h3]

theorem C10_witness :
    validProductItem
      { name := "Pen", url := "u", price := "0", rating := "", reviews := "", imgUrl := ""
        marketplace := "wildberries" } [] = true
    ∧ wbPriceRub (-5) = "0"
    ∧ collectWb wbFetchP0 70 2 = [wbItemP0] := by
  have h := C10_zero_price "Pen" "u" "" "" "" "wildberries" [] (-5)
    (by decide) (by decide) (by decide) (by decide)
  exact ⟨h.1, h.2.1, h.2.2.2.1⟩

/-- Claim C5 (confirmed): on HTTP 429 without a retry hint the client computes
`delay = min(backoffMax, backoffBase^(attempt+1) + jitter)`, declares the
shared cooldown with exactly that delay (so a fresh cooldown ends exactly
`delay` after `now`, and any caller arriving before that end waits for the
remainder), sleeps and retries; other transient failures use the same delay
formula but declare no cooldown (no `setBlock` event in the trace).  The
shared cooldown is enabled under the default configuration. -/
theorem C5_throttle_backoff :
    ∀ (base maxB j : ℚ) (attempt code v : Nat) (jit : Nat → ℚ),
    (retryStep base maxB attempt j (WbFetchErr.http 429 none)
        = (min maxB (base ^ (attempt + 1) + j), true))
    ∧ (code ≠ 429 →
        retryStep base maxB attempt j (WbFetchErr.http code none)
          = (min maxB (base ^ (attempt + 1) + j), false))
    ∧ (retryStep base maxB attempt j WbFetchErr.netErr
        = (min maxB (base ^ (attempt + 1) + j), false))
    ∧ (retryStep base maxB attempt j WbFetchErr.other
        = (min maxB (base ^ (attempt + 1) + j), false))
    ∧ (∀ d blocked now : ℚ, 0 ≤ d → blocked ≤ now →
        wbSetBlock true now blocked d = now + d)
    ∧ (∀ d now now' : ℚ, now' ≤ now + d →
        wbWaitIfBlocked true (now + d) now' = (now + d) - now')
    ∧ (wbUrlopenWithRetry (fun n => if n = 0 then .error (.http 429 none) else .ok v)
        jit base maxB WB_MAX_RETRIES
        = (some v, [WbEvent.rateWait, WbEvent.setBlock (min maxB (base ^ 1 + jit 0)),
            WbEvent.sleep (min maxB (base ^ 1 + jit 0)), WbEvent.rateWait]))
    ∧ (wbUrlopenWithRetry (fun n => if n = 0 then .error .netErr else .ok v)
        jit base maxB WB_MAX_RETRIES
        = (some v, [WbEvent.rateWait, WbEvent.sleep (min maxB (base ^ 1 + jit 0)),
            WbEvent.rateWait]))
    ∧ WB_GLOBAL_COOLDOWN defaultEnv = true := by
  intro base maxB j attempt code v jit
  refine ⟨by simp [retryStep, backoffDelay], ?_, by simp [retryStep, backoffDelay],
    by simp [retryStep, backoffDelay], ?_, ?_, ?_, ?_, rfl⟩
  · intro hc
    simp [retryStep, backoffDelay, hc]
  · intro d blocked now hd hb
    rw [wbSetBlock, if_pos rfl, max_eq_right hd,
      max_eq_right (by linarith : blocked ≤ now + d)]
  · intro d now now' hle
    rw [wbWaitIfBlocked, if_pos rfl, max_eq_right (by linarith : (0:ℚ) ≤ now + d - now')]
  · simp [wbUrlopenWithRetry, wbRetryGo, retryStep, backoffDelay, WB_MAX_RETRIES]
  · simp [wbUrlopenWithRetry, wbRetryGo, retryStep, backoffDelay, WB_MAX_RETRIES]

theorem C5_witness :
    retryStep (3 / 2) 30 0 (1 / 2) (WbFetchErr.http 429 none)
        = (min 30 ((3 / 2 : ℚ) ^ (0 + 1) + 1 / 2), true)
    ∧ retryStep (3 / 2) 30 0 (1 / 2) (WbFetchErr.http 503 none)
        = (min 30 ((3 / 2 : ℚ) ^ (0 + 1) + 1 / 2), false)
    ∧ wbSetBlock true 5 0 2 = 5 + 2 := by
  have h := C5_throttle_backoff (3 / 2) 30 (1 / 2) 0 503 0 (fun _ => 1 / 2)
  exact ⟨h.1, h.2.1 (by norm_num), h.2.2.2.2.1 2 0 5 (by norm_num) (by norm_num)⟩

/-! ### Claim C6 lemmas: the retry envelope's loop -/

theorem collectOzonGo_isSome :
    ∀ (fuel attempt : Nat) (outcome : Nat → Except Unit (List Item)) (needMin : Nat),
    (collectOzonGo outcome needMin (fuel + 1) attempt).isSome = true := by
  intro fuel
  induction fuel with
  | zero =>
    intro attempt outcome needMin
    cases h : outcome attempt <;> simp [collectOzonGo, h]
  | succ m ih =>
    intro attempt outcome needMin
    cases h : outcome attempt with
    | ok items =>
      by_cases hl : needMin ≤ items.length
      · simp [collectOzonGo, h, hl]
      · simpa [collectOzonGo, h, hl] using ih (attempt + 1) outcome needMin
    | error e => simpa [collectOzonGo, h] using ih (attempt + 1) outcome needMin

theorem collectOzonGo_last :
    ∀ (fuel attempt : Nat) (outcome : Nat → Except Unit (List Item)) (needMin : Nat),
    (∀ j, j < fuel → ∀ l, outcome (attempt + j) = .ok l → l.length < needMin) →
    collectOzonGo outcome needMin (fuel + 1) attempt
      = some (match outcome (attempt + fuel) with | .ok l => l | .error _ => []) := by
  intro fuel
  induction fuel with
  | zero =>
    intro attempt outcome needMin _
    simp only [Nat.add_zero]
    cases h : outcome attempt with
    | ok items => simp [collectOzonGo, h, ite_self]
    | error e => simp [collectOzonGo, h]
  | succ m ih =>
    intro attempt outcome needMin hb
    have hstep : collectOzonGo outcome needMin (m + 1 + 1) attempt
        = collectOzonGo outcome needMin (m + 1) (attempt + 1) := by
      cases h : outcome attempt with
      | ok items =>
        have hlt : items.length < needMin := hb 0 (Nat.succ_pos m) items (by simpa using h)
        simp [collectOzonGo, h, Nat.not_le.mpr hlt]
      | error e => simp [collectOzonGo, h]
    rw [hstep, ih (attempt + 1) outcome needMin
      (fun j hj l hl => hb (j + 1) (by omega) l (by
        have : attempt + (j + 1) = attempt + 1 + j := by omega
        rw [this]; exact hl))]
    have : attempt + 1 + m = attempt + (m + 1) := by omega
    rw [this]

/-- Claim C6 (amended): while the harvested count stays below
`min(limit, OZON_MIN_ITEMS)` the envelope retries with a fresh session, and
after the attempt budget is exhausted it returns the result of the LAST
attempt (the empty list when that attempt raised) — not the best result set
across attempts; for a positive attempt budget it always returns (never
raises). -/
theorem C6_amended_thm :
    ∀ (outcome : Nat → Except Unit (List Item)) (limit minItems retries : Nat),
    1 ≤ retries →
    ((∀ j, j < retries - 1 → ∀ l, outcome j = .ok l → l.length < min limit minItems) →
      collectOzon outcome limit minItems retries
        = some (match outcome (retries - 1) with | .ok l => l | .error _ => []))
    ∧ (collectOzon outcome limit minItems retries).isSome = true := by
  intro outcome limit minItems retries hr
  obtain ⟨f, rfl⟩ : ∃ f, retries = f + 1 := ⟨retries - 1, by omega⟩
  constructor
  · intro hbelow
    have h := collectOzonGo_last f 0 outcome (min limit minItems)
      (fun j hj l hl => hbelow j (by simpa using hj) l (by simpa using hl))
    simpa [collectOzon] using h
  · exact collectOzonGo_isSome f 0 outcome (min limit minItems)

/-- Claim C6, counterexample: with attempt yields 5, 4, 3 (all below the
minimum threshold 20), the envelope returns the 3-item set of the final
attempt although the first attempt had harvested 5 items — the best result
set is discarded. -/
theorem C6_counterexample :
    collectOzon ozOutcomesCE 30 20 3 = some (ozAttemptItems 3)
    ∧ ozOutcomesCE 0 = .ok (ozAttemptItems 5)
    ∧ (ozAttemptItems 3).length = 3 ∧ (ozAttemptItems 5).length = 5 := by
  exact ⟨by decide, rfl, by decide, by decide⟩

theorem C6_witness :
    collectOzon ozOutcomesCE 30 20 3
      = some (match ozOutcomesCE 2 with | .ok l => l | .error _ => [])
    ∧ (collectOzon ozOutcomesCE 30 20 3).isSome = true := by
  have h := C6_amended_thm ozOutcomesCE 30 20 3 (by norm_num)
  refine ⟨h.1 ?_, h.2⟩
  intro j hj l hl
  interval_cases j <;>
  · simp only [ozOutcomesCE, Except.ok.injEq] at hl
    subst hl
    decide

/-! ### Claim C9 lemmas: acquire/release pairing in the retry envelope -/

theorem collectOzonEvGo_balanced :
    ∀ (fuel attempt : Nat) (outcome : Nat → Except Unit (List Item)) (needMin : Nat)
      (evs : List PoolEvent),
    poolAcquires evs = poolReleases evs →
    poolAcquires (collectOzonEvGo outcome needMin fuel attempt evs).2
      = poolReleases (collectOzonEvGo outcome needMin fuel attempt evs).2 := by
  intro fuel
  induction fuel with
  | zero =>
    intro attempt outcome needMin evs h
    simpa [collectOzonEvGo] using h
  | succ m ih =>
    intro attempt outcome needMin evs h
    have hbal : poolAcquires (evs ++ [PoolEvent.acquire attempt] ++ [PoolEvent.release attempt])
        = poolReleases (evs ++ [PoolEvent.acquire attempt] ++ [PoolEvent.release attempt]) := by
      simp only [poolAcquires, poolReleases, List.filterMap_append] at h ⊢
      simp [h]
    cases ho : outcome attempt with
    | ok items =>
      by_cases hl : needMin ≤ items.length
      · simpa [collectOzonEvGo, ho, hl] using hbal
      · by_cases hm : m = 0
        · subst hm
          simpa [collectOzonEvGo, ho, hl] using hbal
        · have := ih (attempt + 1) outcome needMin
            (evs ++ [PoolEvent.acquire attempt] ++ [PoolEvent.release attempt]) hbal
          simpa [collectOzonEvGo, ho, hl, hm] using this
    | error e =>
      by_cases hm : m = 0
      · subst hm
        simpa [collectOzonEvGo, ho] using hbal
      · have := ih (attempt + 1) outcome needMin
          (evs ++ [PoolEvent.acquire attempt] ++ [PoolEvent.release attempt]) hbal
        simpa [collectOzonEvGo, ho, hm] using this

/-- Claim C9 (confirmed): in every run of the retry envelope, the sessions
released by the `finally` block (`_quit_chrome_driver`: driver quit plus
profile-directory removal) are exactly the sessions acquired, attempt by
attempt — including attempts whose collection body raised. -/
theorem C9_pool_release_pairing :
    ∀ (outcome : Nat → Except Unit (List Item)) (needMin retries : Nat),
    poolAcquires (collectOzonEv outcome needMin retries).2
      = poolReleases (collectOzonEv outcome needMin retries).2 := by
  intro outcome needMin retries
  exact collectOzonEvGo_balanced retries 0 outcome needMin [] rfl

/-- Claim C4, counterexample: page 1 succeeds and yields one valid item, page
2 exhausts the retry cap; the collection raises as a whole and `collect_wb`
returns the empty list — the item collected from page 1 is discarded. -/
theorem C4_counterexample :
    wbApiCollectSync wbFetchCE4 70 2 = .error ()
    ∧ collectWb wbFetchCE4 70 2 = []
    ∧ wbProcessPage [wbRawCE] [] [] 70 = ([wbItemCE], [wbItemCE.url]) := by
  refine ⟨rfl, by decide, by decide⟩

/-- Claim C4 (amended): exhausting the retry cap on one page raises out of
the whole collection — the error is terminal for the entire WB run, not for
that page only: any items accumulated from earlier successful pages are
discarded and `collect_wb` returns the empty list. -/
theorem C4_amended_thm :
    ∀ (fetch : Nat → Except Unit (List WbRaw)) (limit maxPages : Nat) (ps : List WbRaw),
    2 ≤ maxPages →
    fetch 1 = .ok ps → ps.isEmpty = false →
    (wbProcessPage ps [] [] limit).1.length < limit →
    fetch 2 = .error () →
    wbApiCollectSync fetch limit maxPages = .error ()
    ∧ collectWb fetch limit maxPages = [] := by
  intro fetch limit maxPages ps hmp h1 hne hlen h2
  obtain ⟨m, rfl⟩ : ∃ m, maxPages = m + 2 := ⟨maxPages - 2, by omega⟩
  have hlim : (0 : Nat) < limit := by omega
  have hmain : wbApiCollectSync fetch limit (m + 2) = .error () := by
    show wbApiGo fetch limit (m + 1 + 1) 1 [] [] = .error ()
    rw [wbApiGo]
    simp only [List.length_nil, hlim, if_true, h1, hne, Bool.false_eq_true, if_false]
    rw [wbApiGo]
    simp [hlen, h2]
  exact ⟨hmain, by simp [collectWb, hmain]⟩

theorem C4_witness :
    wbApiCollectSync wbFetchCE4 70 3 = .error ()
    ∧ collectWb wbFetchCE4 70 3 = [] := by
  exact C4_amended_thm wbFetchCE4 70 3 [wbRawCE] (by norm_num) rfl (by decide)
    (by decide) rfl

/-! ### Claim C8 lemmas: the scroll loop's stagnation accounting -/

theorem ozonRoundStep_of_stopped (limit stagLimit : Nat) (st : ScrollSt) (r : ScrollRound)
    (h : st.stopped = true) : ozonRoundStep limit stagLimit st r = st := by
  simp [ozonRoundStep, h]

theorem ozonScrollLoop_of_stopped :
    ∀ (rounds : List ScrollRound) (limit stagLimit : Nat) (st : ScrollSt),
    st.stopped = true → ozonScrollLoop limit stagLimit rounds st = st := by
  intro rounds
  induction rounds with
  | nil => intro limit sl st _; rfl
  | cons r rest ih =>
    intro limit sl st h
    show ozonScrollLoop limit sl rest (ozonRoundStep limit sl st r) = st
    rw [ozonRoundStep_of_stopped limit sl st r h]
    exact ih limit sl st h

theorem ozonScrollLoop_stagnation_bound :
    ∀ (rounds : List ScrollRound) (limit stagLimit : Nat) (st : ScrollSt),
    (∀ r ∈ rounds, r.grew = false) →
    st.stopped = false → st.stag < stagLimit →
    (ozonScrollLoop limit stagLimit rounds st).roundsDone
      ≤ st.roundsDone + (stagLimit - st.stag) := by
  intro rounds
  induction rounds with
  | nil =>
    intro limit sl st _ _ _
    show st.roundsDone ≤ st.roundsDone + (sl - st.stag)
    omega
  | cons r rest ih =>
    intro limit sl st hg hs hlt
    have hgrew : r.grew = false := hg r (List.mem_cons_self r rest)
    have hrest : ∀ x ∈ rest, x.grew = false := fun x hx => hg x (List.mem_cons_of_mem r hx)
    show (ozonScrollLoop limit sl rest (ozonRoundStep limit sl st r)).roundsDone ≤ _
    by_cases hb : r.blocked = true
    · have hstop : (ozonRoundStep limit sl st r).stopped = true := by
        simp [ozonRoundStep, hs, hb]
      have hrd : (ozonRoundStep limit sl st r).roundsDone = st.roundsDone + 1 := by
        simp [ozonRoundStep, hs, hb]
      rw [ozonScrollLoop_of_stopped rest limit sl _ hstop, hrd]
      omega
    · have hb' : r.blocked = false := by simpa using hb
      by_cases hA : (parseOzonCards r.cards st.seen (limit - st.results.length)).1 = []
      · by_cases hC : sl ≤ st.stag + 1
        · have hstop : (ozonRoundStep limit sl st r).stopped = true := by
            simp [ozonRoundStep, hs, hb', hA, hgrew, hC]
          have hrd : (ozonRoundStep limit sl st r).roundsDone = st.roundsDone + 1 := by
            simp [ozonRoundStep, hs, hb', hA, hgrew, hC]
          rw [ozonScrollLoop_of_stopped rest limit sl _ hstop, hrd]
          omega
        · have hstop : (ozonRoundStep limit sl st r).stopped = false := by
            simp [ozonRoundStep, hs, hb', hA, hgrew, hC]
          have hrd : (ozonRoundStep limit sl st r).roundsDone = st.roundsDone + 1 := by
            simp [ozonRoundStep, hs, hb', hA, hgrew, hC]
          have hstg : (ozonRoundStep limit sl st r).stag = st.stag + 1 := by
            simp [ozonRoundStep, hs, hb', hA, hgrew, hC]
          have hrec := ih limit sl (ozonRoundStep limit sl st r) hrest hstop (by omega)
          rw [hrd, hstg] at hrec
          omega
      · by_cases hB : limit ≤ st.results.length
            + (parseOzonCards r.cards st.seen (limit - st.results.length)).1.length
        · have hstop : (ozonRoundStep limit sl st r).stopped = true := by
            simp [ozonRoundStep, hs, hb', hA, hB]
          have hrd : (ozonRoundStep limit sl st r).roundsDone = st.roundsDone + 1 := by
            simp [ozonRoundStep, hs, hb', hA, hB]
          rw [ozonScrollLoop_of_stopped rest limit sl _ hstop, hrd]
          omega
        · by_cases hC : sl ≤ st.stag + 1
          · have hstop : (ozonRoundStep limit sl st r).stopped = true := by
              simp [ozonRoundStep, hs, hb', hA, hB, hgrew, hC]
            have hrd : (ozonRoundStep limit sl st r).roundsDone = st.roundsDone + 1 := by
              simp [ozonRoundStep, hs, hb', hA, hB, hgrew, hC]
            rw [ozonScrollLoop_of_stopped rest limit sl _ hstop, hrd]
            omega
          · have hstop : (ozonRoundStep limit sl st r).stopped = false := by
              simp [ozonRoundStep, hs, hb', hA, hB, hgrew, hC]
            have hrd : (ozonRoundStep limit sl st r).roundsDone = st.roundsDone + 1 := by
              simp [ozonRoundStep, hs, hb', hA, hB, hgrew, hC]
            have hstg : (ozonRoundStep limit sl st r).stag = st.stag + 1 := by
              simp [ozonRoundStep, hs, hb', hA, hB, hgrew, hC]
            have hrec := ih limit sl (ozonRoundStep limit sl st r) hrest hstop (by omega)
            rw [hrd, hstg] at hrec
            omega

/-- Claim C8 (confirmed): a round with no growth increments the stagnation
counter and a round with growth resets it to zero (absent the ban-page and
item-cap breaks); under a trace whose tile count never grows, the loop
executes at most `stagnationLimit` rounds — under the default configuration
that is 12 of the 50-round budget. -/
theorem C8_stagnation :
    (∀ (limit stagLimit : Nat) (st : ScrollSt) (r : ScrollRound),
      st.stopped = false → r.blocked = false →
      ¬((parseOzonCards r.cards st.seen (limit - st.results.length)).1.isEmpty = false
          ∧ limit ≤ (st.results
              ++ (parseOzonCards r.cards st.seen (limit - st.results.length)).1).length) →
      (ozonRoundStep limit stagLimit st r).stag
        = (if r.grew = true then 0 else st.stag + 1))
    ∧ (∀ (limit stagLimit : Nat) (rounds : List ScrollRound),
      1 ≤ stagLimit → (∀ r ∈ rounds, r.grew = false) →
      (ozonScrollLoop limit stagLimit rounds scrollInit).roundsDone ≤ stagLimit)
    ∧ OZON_STAGNATION_LIMIT < OZON_SCROLL_ROUNDS := by
  refine ⟨?_, ?_, by decide⟩
  · intro limit sl st r hs hb hcap
    by_cases hA : (parseOzonCards r.cards st.seen (limit - st.results.length)).1 = []
    · by_cases hg : r.grew = true
      · simp [ozonRoundStep, hs, hb, hA, hg]
      · have hg' : r.grew = false := by simpa using hg
        by_cases hC : sl ≤ st.stag + 1
        · simp [ozonRoundStep, hs, hb, hA, hg', hC]
        · simp [ozonRoundStep, hs, hb, hA, hg', hC]
    · have hB : ¬limit ≤ st.results.length
          + (parseOzonCards r.cards st.seen (limit - st.results.length)).1.length := by
        intro hle
        exact hcap ⟨by simpa using hA, by simpa [List.length_append] using hle⟩
      by_cases hg : r.grew = true
      · simp [ozonRoundStep, hs, hb, hA, hB, hg]
      · have hg' : r.grew = false := by simpa using hg
        by_cases hC : sl ≤ st.stag + 1
        · simp [ozonRoundStep, hs, hb, hA, hB, hg', hC]
        · simp [ozonRoundStep, hs, hb, hA, hB, hg', hC]
  · intro limit sl rounds hsl hg
    have h := ozonScrollLoop_stagnation_bound rounds limit sl scrollInit hg rfl
      (by simpa [scrollInit] using hsl)
    simpa [scrollInit] using h

theorem C8_witness :
    (ozonRoundStep 30 12 scrollInit { blocked := false, cards := [], grew := false }).stag
      = (if ({ blocked := false, cards := [], grew := false } : ScrollRound).grew = true then 0
        else scrollInit.stag + 1)
    ∧ (ozonScrollLoop 30 12
        (List.replicate 50 { blocked := false, cards := [], grew := false })
        scrollInit).roundsDone ≤ 12 := by
  exact ⟨C8_stagnation.1 30 12 scrollInit _ rfl rfl (by decide),
    C8_stagnation.2.1 30 12 _ (by norm_num) (by decide)⟩

/-! ### Claim C7 lemmas: shape of normalized ratings -/

theorem isRatingShape_nonempty {s : String} (h : isRatingShape s = true) :
    strIsEmpty s = false := by
  obtain ⟨cs⟩ := s
  cases cs with
  | nil => simp [isRatingShape] at h
  | cons c tl => simp [strIsEmpty]

theorem isRatingShape_no_comma {s : String} (h : isRatingShape s = true) :
    s.data.contains ',' = false := by
  obtain ⟨cs⟩ := s
  rw [Bool.eq_false_iff]
  intro hcon
  have hmem := listContains_iff.mp hcon
  cases cs with
  | nil => simp at hmem
  | cons c tl =>
    cases tl with
    | nil =>
      simp only [isRatingShape] at h
      have hc : (',' : Char) = c := by simpa using hmem
      rw [← hc] at h
      exact absurd h (by decide)
    | cons p tl2 =>
      cases tl2 with
      | nil => simp [isRatingShape] at h
      | cons d tl3 =>
        cases tl3 with
        | nil =>
          simp only [isRatingShape, Bool.and_eq_true] at h
          obtain ⟨⟨h1, h2⟩, h3⟩ := h
          have hp : p = '.' := by simpa using h2
          simp only [List.mem_cons, List.not_mem_nil, or_false] at hmem
          rcases hmem with hm | hm | hm
          · rw [← hm] at h1
            exact absurd h1 (by decide)
          · rw [← hm] at hp
            exact absurd hp (by decide)
          · rw [← hm] at h3
            exact absurd h3 (by decide)
        | cons e tl4 => simp [isRatingShape] at h

theorem titleRatingCapture_shape :
    ∀ (t s : String), titleRatingCapture t = some s → isRatingShape s = true := by
  intro t s h
  obtain ⟨cs⟩ := t
  match cs with
  | [] => exact absurd h (by simp [titleRatingCapture])
  | [c] =>
    simp only [titleRatingCapture] at h
    split_ifs at h with h1
    simp only [Option.some.injEq] at h
    subst h
    show isOneToFive c = true
    simp only [Bool.and_eq_true] at h1
    exact h1.1
  | [c, p] =>
    simp only [titleRatingCapture] at h
    split_ifs at h with h1
    simp only [Option.some.injEq] at h
    subst h
    show isOneToFive c = true
    simp only [Bool.and_eq_true] at h1
    exact h1.1
  | c :: p :: d :: rest =>
    simp only [titleRatingCapture] at h
    split_ifs at h with h1 h2
    · simp only [Option.some.injEq] at h
      subst h
      show (isOneToFive c && ('.' == '.') && d.isDigit) = true
      simp only [Bool.and_eq_true] at h1 ⊢
      exact ⟨⟨h1.1.1.2, by decide⟩, h1.1.2⟩
    · simp only [Option.some.injEq] at h
      subst h
      show isOneToFive c = true
      simp only [Bool.and_eq_true] at h2
      exact h2.1

theorem firstSome_capture_shape :
    ∀ (l : List String) (r : String),
    firstSome l titleRatingCapture = some r → isRatingShape r = true := by
  intro l
  induction l with
  | nil => intro r h; exact absurd h (by simp [firstSome])
  | cons t rest ih =>
    intro r h
    unfold firstSome at h
    cases hc : titleRatingCapture t with
    | some x =>
      rw [hc] at h
      simp only [Option.some.injEq] at h
      subst h
      exact titleRatingCapture_shape t x hc
    | none =>
      rw [hc] at h
      exact ih r h

theorem extractOzonRating_shape :
    ∀ (rt : Option String) (titles : List String),
    extractOzonRating rt titles = ""
    ∨ isRatingShape (extractOzonRating rt titles) = true := by
  intro rt titles
  unfold extractOzonRating
  cases rt with
  | none =>
    cases hf : firstSome titles titleRatingCapture with
    | none => left; simp [hf, strIsEmpty]
    | some r =>
      right
      have hr := firstSome_capture_shape titles r hf
      simpa [hf, strIsEmpty] using hr
  | some t =>
    by_cases hsh : isRatingShape (commaToDot (cleanSpaces t)) = true
    · right
      have hne := isRatingShape_nonempty hsh
      simpa [hsh, hne] using hsh
    · have hsh' : isRatingShape (commaToDot (cleanSpaces t)) = false := by simpa using hsh
      cases hf : firstSome titles titleRatingCapture with
      | none => left; simp [hsh', hf, strIsEmpty]
      | some r =>
        right
        have hr := firstSome_capture_shape titles r hf
        simpa [hsh', hf, strIsEmpty] using hr

/-- Claim C7 (amended): an Ozon item's rating, when present, is normalized to
the single-decimal form `[1-5](.d)?` with `.` — not `,` — as the decimal
separator (in particular it never contains a comma), and is absent (empty)
when not confidently extracted; a WB item's rating, by contrast, is the
upstream value's string form passed through without any normalization or
range constraint. -/
theorem C7_amended_thm :
    (∀ (rt : Option String) (titles : List String),
      extractOzonRating rt titles = ""
      ∨ (isRatingShape (extractOzonRating rt titles) = true
          ∧ (extractOzonRating rt titles).data.contains ',' = false))
    ∧ (∀ (card : OzonCard) (seen : List String) (it : Item),
        parseOzonCard card seen = some it →
        it.rating = extractOzonRating card.ratingText card.rawTitles)
    ∧ (∀ p : WbRaw, (wbBuildItem p).rating = p.rating.getD "") := by
  refine ⟨?_, ?_, fun p => rfl⟩
  · intro rt titles
    rcases extractOzonRating_shape rt titles with h | h
    · exact Or.inl h
    · exact Or.inr ⟨h, isRatingShape_no_comma h⟩
  · intro card seen it h
    simp only [parseOzonCard] at h
    split_ifs at h <;>
      (try simp only [Option.some.injEq] at h) <;>
      first
        | (subst h; rfl)
        | simp at h

/-- Claim C7, counterexample: the Ozon normalizer turns the comma-separated
text `4,9` into `4.9` — the emitted rating uses `.`, not `,`, as the decimal
separator; and a WB product whose upstream rating is `0` is emitted with
rating `"0"`, present but outside the plausible 1–5 range. -/
theorem C7_counterexample :
    extractOzonRating (some "4,9") [] = "4.9"
    ∧ ("4.9" : String).data.contains ',' = false
    ∧ collectWb wbFetchR0 70 2 = [wbItemR0]
    ∧ wbItemR0.rating = "0"
    ∧ isRatingShape "0" = false
    ∧ strIsEmpty wbItemR0.rating = false := by
  exact ⟨by decide, by decide, by decide, rfl, by decide, by decide⟩

theorem C7_witness :
    ozItemCE.rating = extractOzonRating ozCardCE.ratingText ozCardCE.rawTitles := by
  exact C7_amended_thm.2.1 ozCardCE [] ozItemCE (by decide)

/-! ### Claim C3 lemmas: field validity and per-run URL uniqueness -/

theorem take_inv (out : List Item) (limit : Nat)
    (h1 : ∀ it ∈ out, itemOk it = true)
    (h3 : (out.map (fun it => it.url)).Nodup) :
    (∀ it ∈ out.take limit, itemOk it = true)
    ∧ ((out.take limit).map (fun it => it.url)).Nodup :=
  ⟨fun it hit => h1 it (List.mem_of_mem_take hit),
   by rw [List.map_take]; exact h3.sublist (List.take_sublist _ _)⟩

theorem wbProcessPage_inv :
    ∀ (ps : List WbRaw) (out : List Item) (seen : List String) (limit : Nat),
    (∀ it ∈ out, itemOk it = true) →
    (∀ it ∈ out, it.url ∈ seen) →
    ((out.map (fun it => it.url)).Nodup) →
    (∀ it ∈ (wbProcessPage ps out seen limit).1, itemOk it = true)
    ∧ (∀ it ∈ (wbProcessPage ps out seen limit).1,
        it.url ∈ (wbProcessPage ps out seen limit).2)
    ∧ (((wbProcessPage ps out seen limit).1.map (fun it => it.url)).Nodup)
    ∧ (∀ u ∈ seen, u ∈ (wbProcessPage ps out seen limit).2) := by
  intro ps
  induction ps with
  | nil =>
    intro out seen limit h1 h2 h3
    exact ⟨h1, h2, h3, fun u hu => hu⟩
  | cons p rest ih =>
    intro out seen limit h1 h2 h3
    by_cases hv : validProductItem (wbBuildItem p) seen = true
    · obtain ⟨hok, hnotin⟩ := validProductItem_facts hv
      have h1' : ∀ it ∈ out ++ [wbBuildItem p], itemOk it = true := by
        intro it hit
        rcases List.mem_append.mp hit with hmem | hmem
        · exact h1 it hmem
        · rw [List.mem_singleton.mp hmem]; exact hok
      have h2' : ∀ it ∈ out ++ [wbBuildItem p], it.url ∈ (wbBuildItem p).url :: seen := by
        intro it hit
        rcases List.mem_append.mp hit with hmem | hmem
        · exact List.mem_cons_of_mem _ (h2 it hmem)
        · rw [List.mem_singleton.mp hmem]; exact List.mem_cons_self _ _
      have h3' : ((out ++ [wbBuildItem p]).map (fun it => it.url)).Nodup := by
        rw [List.map_append, List.nodup_append]
        refine ⟨h3, List.nodup_singleton _, ?_⟩
        intro u hu hu2
        obtain ⟨it, hit, heq⟩ := List.mem_map.mp hu
        simp only [List.map_cons, List.map_nil, List.mem_singleton] at hu2
        have hseen : u ∈ seen := heq ▸ h2 it hit
        rw [hu2] at hseen
        exact hnotin hseen
      by_cases hlim : limit ≤ out.length + 1
      · have hres : wbProcessPage (p :: rest) out seen limit
            = (out ++ [wbBuildItem p], (wbBuildItem p).url :: seen) := by
          simp [wbProcessPage, hv, hlim]
        rw [hres]
        exact ⟨h1', h2', h3', fun u hu => List.mem_cons_of_mem _ hu⟩
      · have hres : wbProcessPage (p :: rest) out seen limit
            = wbProcessPage rest (out ++ [wbBuildItem p]) ((wbBuildItem p).url :: seen) limit := by
          simp [wbProcessPage, hv, hlim]
        rw [hres]
        obtain ⟨k1, k2, k3, k4⟩ := ih (out ++ [wbBuildItem p])
          ((wbBuildItem p).url :: seen) limit h1' h2' h3'
        exact ⟨k1, k2, k3, fun u hu => k4 u (List.mem_cons_of_mem _ hu)⟩
    · have hres : wbProcessPage (p :: rest) out seen limit
          = wbProcessPage rest out seen limit := by
        simp [wbProcessPage, hv]
      rw [hres]
      exact ih out seen limit h1 h2 h3

theorem wbApiGo_inv :
    ∀ (fuel : Nat) (fetch : Nat → Except Unit (List WbRaw)) (limit page : Nat)
      (out : List Item) (seen : List String),
    (∀ it ∈ out, itemOk it = true) →
    (∀ it ∈ out, it.url ∈ seen) →
    ((out.map (fun it => it.url)).Nodup) →
    ∀ l, wbApiGo fetch limit fuel page out seen = .ok l →
      (∀ it ∈ l, itemOk it = true) ∧ ((l.map (fun it => it.url)).Nodup) := by
  intro fuel
  induction fuel with
  | zero =>
    intro fetch limit page out seen h1 h2 h3 l hl
    simp only [wbApiGo, Except.ok.injEq] at hl
    subst hl
    exact take_inv out limit h1 h3
  | succ m ih =>
    intro fetch limit page out seen h1 h2 h3 l hl
    by_cases hlen : out.length < limit
    · cases hf : fetch page with
      | error e =>
        rw [wbApiGo, if_pos hlen, hf] at hl
        simp at hl
      | ok products =>
        by_cases hemp : products.isEmpty = true
        · rw [wbApiGo, if_pos hlen, hf] at hl
          simp [hemp] at hl
          subst hl
          exact take_inv out limit h1 h3
        · rw [wbApiGo, if_pos hlen, hf] at hl
          simp only [Bool.not_eq_true] at hemp
          simp only [hemp, Bool.false_eq_true, if_false] at hl
          obtain ⟨k1, k2, k3, _⟩ := wbProcessPage_inv products out seen limit h1 h2 h3
          exact ih fetch limit (page + 1) (wbProcessPage products out seen limit).1
            (wbProcessPage products out seen limit).2 k1 k2 k3 l hl
    · rw [wbApiGo, if_neg hlen] at hl
      simp only [Except.ok.injEq] at hl
      subst hl
      exact take_inv out limit h1 h3

theorem collectWb_inv :
    ∀ (fetch : Nat → Except Unit (List WbRaw)) (limit maxPages : Nat),
    (∀ it ∈ collectWb fetch limit maxPages, itemOk it = true)
    ∧ ((collectWb fetch limit maxPages).map (fun it => it.url)).Nodup := by
  intro fetch limit maxPages
  cases hw : wbApiCollectSync fetch limit maxPages with
  | ok l =>
    have hc : collectWb fetch limit maxPages = l := by simp [collectWb, hw]
    rw [hc]
    exact wbApiGo_inv maxPages fetch limit 1 [] [] (by simp) (by simp) (by simp) l
      (by simpa [wbApiCollectSync] using hw)
  | error e =>
    have hc : collectWb fetch limit maxPages = [] := by simp [collectWb, hw]
    rw [hc]
    constructor <;> simp

theorem parseOzonCards_inv :
    ∀ (cards : List OzonCard) (seen : List String) (left : Nat),
    (∀ it ∈ (parseOzonCards cards seen left).1, itemOk it = true)
    ∧ (∀ it ∈ (parseOzonCards cards seen left).1,
        it.url ∈ (parseOzonCards cards seen left).2 ∧ it.url ∉ seen)
    ∧ (((parseOzonCards cards seen left).1.map (fun it => it.url)).Nodup)
    ∧ (∀ u ∈ seen, u ∈ (parseOzonCards cards seen left).2) := by
  intro cards
  induction cards with
  | nil =>
    intro seen left
    refine ⟨by simp [parseOzonCards], by simp [parseOzonCards],
      by simp [parseOzonCards], by simp [parseOzonCards]⟩
  | cons card rest ih =>
    intro seen left
    cases hp : parseOzonCard card seen with
    | none =>
      have hres : parseOzonCards (card :: rest) seen left
          = parseOzonCards rest seen left := by
        simp [parseOzonCards, hp]
      rw [hres]
      exact ih seen left
    | some item =>
      by_cases hv : validProductItem item seen = true
      · obtain ⟨hok, hnotin⟩ := validProductItem_facts hv
        by_cases hleft : left ≤ 1
        · have hres : parseOzonCards (card :: rest) seen left
              = ([item], item.url :: seen) := by
            simp [parseOzonCards, hp, hv, hleft]
          rw [hres]
          refine ⟨?_, ?_, by simp, fun u hu => List.mem_cons_of_mem _ hu⟩
          · intro it hit
            rw [List.mem_singleton.mp hit]
            exact hok
          · intro it hit
            rw [List.mem_singleton.mp hit]
            exact ⟨List.mem_cons_self _ _, hnotin⟩
        · have hres : parseOzonCards (card :: rest) seen left
              = (item :: (parseOzonCards rest (item.url :: seen) (left - 1)).1,
                 (parseOzonCards rest (item.url :: seen) (left - 1)).2) := by
            simp [parseOzonCards, hp, hv, hleft]
          rw [hres]
          obtain ⟨k1, k2, k3, k4⟩ := ih (item.url :: seen) (left - 1)
          refine ⟨?_, ?_, ?_, fun u hu => k4 u (List.mem_cons_of_mem _ hu)⟩
          · intro it hit
            rcases List.mem_cons.mp hit with hmem | hmem
            · rw [hmem]; exact hok
            · exact k1 it hmem
          · intro it hit
            rcases List.mem_cons.mp hit with hmem | hmem
            · rw [hmem]
              exact ⟨k4 item.url (List.mem_cons_self _ _), hnotin⟩
            · obtain ⟨km, kn⟩ := k2 it hmem
              exact ⟨km, fun hc => kn (List.mem_cons_of_mem _ hc)⟩
          · rw [List.map_cons, List.nodup_cons]
            refine ⟨?_, k3⟩
            intro hmem
            obtain ⟨it, hit, heq⟩ := List.mem_map.mp hmem
            obtain ⟨_, kn⟩ := k2 it hit
            exact kn (by rw [heq]; exact List.mem_cons_self _ _)
      · have hres : parseOzonCards (card :: rest) seen left
            = parseOzonCards rest seen left := by
          simp [parseOzonCards, hp, hv]
        rw [hres]
        exact ih seen left

theorem parseMerge_inv (olds : List Item) (seen : List String) (cards : List OzonCard)
    (left : Nat)
    (h1 : ∀ it ∈ olds, itemOk it = true)
    (h2 : (olds.map (fun it => it.url)).Nodup)
    (h3 : ∀ it ∈ olds, it.url ∈ seen) :
    (∀ it ∈ olds ++ (parseOzonCards cards seen left).1, itemOk it = true)
    ∧ (((olds ++ (parseOzonCards cards seen left).1).map (fun it => it.url)).Nodup)
    ∧ (∀ it ∈ olds ++ (parseOzonCards cards seen left).1,
        it.url ∈ (parseOzonCards cards seen left).2) := by
  obtain ⟨k1, k2, k3, k4⟩ := parseOzonCards_inv cards seen left
  refine ⟨?_, ?_, ?_⟩
  · intro it hit
    rcases List.mem_append.mp hit with hmem | hmem
    · exact h1 it hmem
    · exact k1 it hmem
  · rw [List.map_append, List.nodup_append]
    refine ⟨h2, k3, ?_⟩
    intro u hu hu2
    obtain ⟨it, hit, heq⟩ := List.mem_map.mp hu
    obtain ⟨it2, hit2, heq2⟩ := List.mem_map.mp hu2
    obtain ⟨_, kn⟩ := k2 it2 hit2
    exact (heq2 ▸ kn) (heq ▸ h3 it hit)
  · intro it hit
    rcases List.mem_append.mp hit with hmem | hmem
    · exact k4 it.url (h3 it hmem)
    · exact (k2 it hmem).1

theorem ozonRoundStep_inv (limit sl : Nat) (st : ScrollSt) (r : ScrollRound)
    (h1 : ∀ it ∈ st.results, itemOk it = true)
    (h2 : (st.results.map (fun it => it.url)).Nodup)
    (h3 : ∀ it ∈ st.results, it.url ∈ st.seen) :
    (∀ it ∈ (ozonRoundStep limit sl st r).results, itemOk it = true)
    ∧ (((ozonRoundStep limit sl st r).results.map (fun it => it.url)).Nodup)
    ∧ (∀ it ∈ (ozonRoundStep limit sl st r).results,
        it.url ∈ (ozonRoundStep limit sl st r).seen) := by
  by_cases hs : st.stopped = true
  · rw [ozonRoundStep_of_stopped limit sl st r hs]
    exact ⟨h1, h2, h3⟩
  · have hs' : st.stopped = false := by simpa using hs
    by_cases hb : r.blocked = true
    · have hstep : ozonRoundStep limit sl st r
          = { st with roundsDone := st.roundsDone + 1, stopped := true } := by
        simp [ozonRoundStep, hs', hb]
      rw [hstep]
      exact ⟨h1, h2, h3⟩
    · have hb' : r.blocked = false := by simpa using hb
      have hm := parseMerge_inv st.results st.seen r.cards (limit - st.results.length) h1 h2 h3
      have hres : (ozonRoundStep limit sl st r).results
            = st.results ++ (parseOzonCards r.cards st.seen (limit - st.results.length)).1
          ∧ (ozonRoundStep limit sl st r).seen
            = (parseOzonCards r.cards st.seen (limit - st.results.length)).2 := by
        by_cases hA : (parseOzonCards r.cards st.seen (limit - st.results.length)).1 = []
        · by_cases hg : r.grew = true
          · constructor <;> simp [ozonRoundStep, hs', hb', hA, hg]
          · have hg' : r.grew = false := by simpa using hg
            by_cases hC : sl ≤ st.stag + 1
            · constructor <;> simp [ozonRoundStep, hs', hb', hA, hg', hC]
            · constructor <;> simp [ozonRoundStep, hs', hb', hA, hg', hC]
        · by_cases hB : limit ≤ st.results.length
              + (parseOzonCards r.cards st.seen (limit - st.results.length)).1.length
          · constructor <;> simp [ozonRoundStep, hs', hb', hA, hB]
          · by_cases hg : r.grew = true
            · constructor <;> simp [ozonRoundStep, hs', hb', hA, hB, hg]
            · have hg' : r.grew = false := by simpa using hg
              by_cases hC : sl ≤ st.stag + 1
              · constructor <;> simp [ozonRoundStep, hs', hb', hA, hB, hg', hC]
              · constructor <;> simp [ozonRoundStep, hs', hb', hA, hB, hg', hC]
      rw [hres.1, hres.2]
      exact ⟨hm.1, hm.2.1, hm.2.2⟩

theorem ozonScrollLoop_inv :
    ∀ (rounds : List ScrollRound) (limit sl : Nat) (st : ScrollSt),
    (∀ it ∈ st.results, itemOk it = true) →
    ((st.results.map (fun it => it.url)).Nodup) →
    (∀ it ∈ st.results, it.url ∈ st.seen) →
    (∀ it ∈ (ozonScrollLoop limit sl rounds st).results, itemOk it = true)
    ∧ (((ozonScrollLoop limit sl rounds st).results.map (fun it => it.url)).Nodup)
    ∧ (∀ it ∈ (ozonScrollLoop limit sl rounds st).results,
        it.url ∈ (ozonScrollLoop limit sl rounds st).seen) := by
  intro rounds
  induction rounds with
  | nil =>
    intro limit sl st h1 h2 h3
    exact ⟨h1, h2, h3⟩
  | cons r rest ih =>
    intro limit sl st h1 h2 h3
    obtain ⟨k1, k2, k3⟩ := ozonRoundStep_inv limit sl st r h1 h2 h3
    exact ih limit sl (ozonRoundStep limit sl st r) k1 k2 k3

theorem ozonSyncCollect_inv :
    ∀ (limit stagLimit : Nat) (b0 f0 : Bool) (rounds : List ScrollRound)
      (finalCards : List OzonCard) (l : List Item),
    ozonSyncCollect limit stagLimit b0 f0 rounds finalCards = .ok l →
    (∀ it ∈ l, itemOk it = true) ∧ ((l.map (fun it => it.url)).Nodup) := by
  intro limit sl b0 f0 rounds finalCards l h
  unfold ozonSyncCollect at h
  by_cases hb : b0 = true
  · rw [if_pos hb] at h
    simp only [Except.ok.injEq] at h
    subst h
    exact ⟨by simp, by simp⟩
  · rw [if_neg hb] at h
    by_cases hf : f0 = true
    · rw [hf] at h
      simp only [Bool.not_true, Bool.false_eq_true, if_false] at h
      obtain ⟨k1, k2, k3⟩ := ozonScrollLoop_inv rounds limit sl scrollInit
        (by simp [scrollInit]) (by simp [scrollInit]) (by simp [scrollInit])
      by_cases hfin : (ozonScrollLoop limit sl rounds scrollInit).results.length < limit
      · rw [if_pos hfin] at h
        simp only [Except.ok.injEq] at h
        subst h
        obtain ⟨m1, m2, _⟩ := parseMerge_inv (ozonScrollLoop limit sl rounds scrollInit).results
          (ozonScrollLoop limit sl rounds scrollInit).seen finalCards
          (limit - (ozonScrollLoop limit sl rounds scrollInit).results.length) k1 k2 k3
        exact take_inv _ limit m1 m2
      · rw [if_neg hfin] at h
        simp only [Except.ok.injEq] at h
        subst h
        exact take_inv _ limit k1 k2
    · have hf' : f0 = false := by simpa using hf
      rw [hf'] at h
      simp at h

/-! ### Cache and merge lemmas for the endpoint -/

theorem cacheLookup_mem :
    ∀ (c : Cache) (key : String) (d : ProductsResponse) (ts : Nat),
    cacheLookup c key = some (d, ts)
    → (key, d, ts) ∈ (c : List (String × ProductsResponse × Nat)) := by
  intro c
  induction c with
  | nil => intro key d ts h; exact absurd h (by simp [cacheLookup])
  | cons e rest ih =>
    intro key d ts h
    obtain ⟨k, dd, t⟩ := e
    by_cases hk : k = key
    · rw [cacheLookup, if_pos hk] at h
      simp only [Option.some.injEq, Prod.mk.injEq] at h
      exact List.mem_cons.mpr (Or.inl (by rw [hk, h.1, h.2]))
    · rw [cacheLookup, if_neg hk] at h
      exact List.mem_cons.mpr (Or.inr (ih key d ts h))

theorem getFromCache_some :
    ∀ (ec : Bool) (ttl now : Nat) (c : Cache) (key : String) (d : ProductsResponse),
    (getFromCache ec ttl now c key).1 = some d →
    ∃ ts, cacheLookup c key = some (d, ts) := by
  intro ec ttl now c key d h
  by_cases hec : ec = true
  · rw [getFromCache] at h
    rw [hec] at h
    simp only [Bool.not_true, Bool.false_eq_true, if_false] at h
    cases hc : cacheLookup c key with
    | none => rw [hc] at h; simp at h
    | some p =>
      obtain ⟨dd, ts⟩ := p
      rw [hc] at h
      by_cases hfresh : now - ts < ttl
      · simp only [hfresh, if_true, Option.some.injEq] at h
        exact ⟨ts, by simp [hc, h]⟩
      · simp [hfresh] at h
  · have hec' : ec = false := by simpa using hec
    rw [getFromCache, hec'] at h
    simp at h

theorem gatherItems_aux :
    ∀ (parts : List (Except Unit (List Item))) (acc : List Item) (x : Item),
    x ∈ parts.foldl
      (fun acc part =>
        match part with
        | Except.ok l => acc ++ l
        | Except.error _ => acc) acc →
    x ∈ acc ∨ ∃ l, Except.ok l ∈ parts ∧ x ∈ l := by
  intro parts
  induction parts with
  | nil => intro acc x h; exact Or.inl h
  | cons p rest ih =>
    intro acc x h
    rw [List.foldl_cons] at h
    cases p with
    | ok l =>
      rcases ih (acc ++ l) x h with hm | ⟨l2, hl2, hx⟩
      · rcases List.mem_append.mp hm with hm2 | hm2
        · exact Or.inl hm2
        · exact Or.inr ⟨l, List.mem_cons_self _ _, hm2⟩
      · exact Or.inr ⟨l2, List.mem_cons_of_mem _ hl2, hx⟩
    | error e =>
      rcases ih acc x h with hm | ⟨l2, hl2, hx⟩
      · exact Or.inl hm
      · exact Or.inr ⟨l2, List.mem_cons_of_mem _ hl2, hx⟩

theorem mem_gatherItems :
    ∀ (parts : List (Except Unit (List Item))) (x : Item),
    x ∈ gatherItems parts → ∃ l, Except.ok l ∈ parts ∧ x ∈ l := by
  intro parts x h
  rcases gatherItems_aux parts [] x h with hm | hx
  · exact absurd hm (List.not_mem_nil x)
  · exact hx

/-- Claim C3 (amended): every item in a collector's returned list has
non-empty `url`, `name` and `price` with `price` all digits, and no two
items WITHIN ONE collector's list share a `url` (the seen-set dedup is
scoped per collector invocation); the aggregated response's items all
satisfy the same field validity, but cross-source URL uniqueness is not
enforced — two items from different collectors may share a `url`. -/
theorem C3_amended_thm :
    (∀ (fetch : Nat → Except Unit (List WbRaw)) (limit maxPages : Nat),
      (∀ it ∈ collectWb fetch limit maxPages, itemOk it = true)
      ∧ ((collectWb fetch limit maxPages).map (fun it => it.url)).Nodup)
    ∧ (∀ (limit stagLimit : Nat) (b0 f0 : Bool) (rounds : List ScrollRound)
        (finalCards : List OzonCard) (l : List Item),
      ozonSyncCollect limit stagLimit b0 f0 rounds finalCards = .ok l →
      (∀ it ∈ l, itemOk it = true) ∧ ((l.map (fun it => it.url)).Nodup))
    ∧ (∀ (ec : Bool) (ttl now maxItems : Nat) (eWB eOz : Bool)
        (wbO ozO : Except Unit (List Item)) (cache : Cache) (q : String)
        (resp : ProductsResponse) (c' : Cache),
      (∀ e ∈ cache, ∀ it ∈ (e.2.1).items, itemOk it = true) →
      (∀ l, wbO = Except.ok l → ∀ it ∈ l, itemOk it = true) →
      (∀ l, ozO = Except.ok l → ∀ it ∈ l, itemOk it = true) →
      getProducts ec ttl now maxItems eWB eOz wbO ozO cache q = .ok (resp, c') →
      ∀ it ∈ resp.items, itemOk it = true) := by
  refine ⟨collectWb_inv, ozonSyncCollect_inv, ?_⟩
  intro ec ttl now maxItems eWB eOz wbO ozO cache q resp c' hcache hwb hoz hgp
  by_cases hq : strIsEmpty (pyStrip q) = true
  · rw [getProducts, if_pos hq] at hgp
    exact absurd hgp (by simp)
  · have hq' : strIsEmpty (pyStrip q) = false := by simpa using hq
    cases hg : (getFromCache ec ttl now cache ("products:" ++ pyStrip q)).1 with
    | some d =>
      have hresp : resp = d := by
        simp [getProducts, hq', hg] at hgp
        exact hgp.1.symm
      obtain ⟨ts, hlook⟩ := getFromCache_some ec ttl now cache _ d hg
      have hmem := cacheLookup_mem cache _ d ts hlook
      intro it hit
      rw [hresp] at hit
      exact hcache ("products:" ++ pyStrip q, d, ts) hmem it hit
    | none =>
      by_cases hpe : ((if eWB = true then [wbO] else [])
          ++ (if eOz = true then [ozO] else [])).isEmpty = true
      · rw [getProducts, if_neg (by simp [hq'])] at hgp
        simp only [hg, hpe, if_true] at hgp
        exact absurd hgp (by simp)
      · have hitems : resp.items
            = (gatherItems ((if eWB = true then [wbO] else [])
                ++ (if eOz = true then [ozO] else []))).take maxItems := by
          simp [getProducts, hq', hg, hpe] at hgp
          rw [← hgp.1]
        intro it hit
        rw [hitems] at hit
        obtain ⟨l, hl, hx⟩ := mem_gatherItems _ it (List.mem_of_mem_take hit)
        rcases List.mem_append.mp hl with hm | hm
        · by_cases he : eWB = true
          · rw [if_pos he] at hm
            exact hwb l (List.mem_singleton.mp hm).symm it hx
          · rw [if_neg he] at hm
            exact absurd hm (List.not_mem_nil _)
        · by_cases he : eOz = true
          · rw [if_pos he] at hm
            exact hoz l (List.mem_singleton.mp hm).symm it hx
          · rw [if_neg he] at hm
            exact absurd hm (List.not_mem_nil _)

/-- Claim C3, counterexample: a WB product with id 1 and an Ozon card whose
absolute link is that same WB product URL both pass their collectors'
validity and dedup checks; the aggregated response then contains two items
with the same `url` — the returned list's URLs are not pairwise distinct. -/
theorem C3_counterexample :
    ozonSyncCollect 30 12 false true [] [ozCardCE] = .ok [ozItemCE]
    ∧ getProducts false 60 0 100 true true (.ok (collectWb wbFetchCE 70 2)) (.ok [ozItemCE])
        [] "phone"
      = .ok ({ query := "phone", count := 2, items := [wbItemCE, ozItemCE] }, [])
    ∧ wbItemCE.url = ozItemCE.url
    ∧ ¬(([wbItemCE, ozItemCE].map (fun it => it.url)).Nodup) := by
  exact ⟨rfl, rfl, rfl, by decide⟩

theorem C3_witness :
    ((∀ it ∈ collectWb wbFetchCE 70 2, itemOk it = true)
      ∧ ((collectWb wbFetchCE 70 2).map (fun it => it.url)).Nodup)
    ∧ (∀ it ∈ ({ query := "tv", count := 0, items := [] } : ProductsResponse).items,
        itemOk it = true) := by
  refine ⟨C3_amended_thm.1 wbFetchCE 70 2, ?_⟩
  refine C3_amended_thm.2.2 false 60 0 100 true true (.ok []) (.ok []) [] "tv"
    { query := "tv", count := 0, items := [] } [] ?_ ?_ ?_ rfl
  · intro e he
    exact absurd he (List.not_mem_nil e)
  · intro l hl
    injection hl with h
    subst h
    intro it hit
    exact absurd hit (List.not_mem_nil it)
  · intro l hl
    injection hl with h
    subst h
    intro it hit
    exact absurd hit (List.not_mem_nil it)
